import Mathlib

/-!
# Verification of the jitdi request-routing and build-coordination core

Shallow embedding of `src/pkg/handler/handler.go` (package `handler`) of the
jitdi repository, together with proofs checking the natural-language
specification against it.

The repository source under `src/` contains only `handler.go`.  The
collaborators it calls (`pkg/pattern.Rule`, the `imageBuilder` image store,
`pkg/atomic.SyncMap`, and the Go standard-library pieces `sort.Slice`,
`sync.RWMutex`, `strings.Split`) are not under `src/`; those are modelled
from the specification's collaborator contracts (each such definition carries
a doc comment starting with `Modelled from the spec:`).  Everything else is
translated directly from the Go source.
-/

namespace Jitdi


/-- Modelled from the spec: `pkg/pattern.Rule` is not under `src/`.  Per the
spec (§3, §6) a Rule is an immutable match specification with a precedence
key used by its total-order comparison `LessThan`, a match predicate over
reference strings, and an opaque mutation descriptor.  The match predicate is
represented extensionally by the finite list of reference strings it accepts;
the mutation is an opaque identifier. -/
structure Rule where
  prec : Nat
  accepts : List String
  mutId : Nat
  deriving DecidableEq, Repr

/-- Modelled from the spec: `Rule.Match(ref)` returns `(mutates, ok)`; here
`some mutId` when the predicate accepts `ref`, `none` otherwise (§6). -/
def Rule.Match (r : Rule) (ref : String) : Option Nat :=
  if ref ∈ r.accepts then some r.mutId else none

/-- Modelled from the spec: `Rule.LessThan` is the total-order precedence
comparison (§3: rules carry a precedence key; the list is sorted by it). -/
def Rule.LessThan (a b : Rule) : Bool := a.prec < b.prec

/-- Modelled from the spec: a static-config record / cluster object spec from
which `pattern.NewRule` constructs a Rule; construction may fail (§4.2, §6),
the cause being opaque to the core, so failure is a boolean field. -/
structure ImageSpec where
  valid : Bool
  prec : Nat
  accepts : List String
  mutId : Nat
  deriving DecidableEq, Repr

/-- Modelled from the spec: `pattern.NewRule(spec)` returns a Rule or an
error; embedded as `Option Rule` (§6). -/
def NewRule (s : ImageSpec) : Option Rule :=
  if s.valid then some ⟨s.prec, s.accepts, s.mutId⟩ else none

/-- The reference string `ref := image + ":" + tag` constructed at the top
of `Handler.build` (handler.go line 192) and used as the build-lock key and
rule-match input. -/
def mkRef (image tag : String) : String := image ++ ":" ++ tag

/-! ## Rule matching loop

`Handler.build` (handler.go lines 207–217) iterates over the resolved rule
list in order; on the first rule whose `Match` accepts the reference it calls
`h.image.Build(ref, mutates)` and breaks out of the loop. -/

/-- The mutation selected by the loop of `Handler.build` lines 208–217:
first rule in list order whose `Match` accepts `ref`, else none. -/
def matchLoop : List Rule → String → Option Nat
  | [], _ => none
  | r :: rs, ref =>
    match r.Match ref with
    | some m => some m
    | none => matchLoop rs ref

/-- Instrumented version of the loop in `Handler.build` lines 208–217: also
returns the list of rules whose `Match` was actually evaluated (consulted)
before the loop stopped. -/
def consultLoop : List Rule → String → List Rule × Option Nat
  | [], _ => ([], none)
  | r :: rs, ref =>
    match r.Match ref with
    | some m => ([r], some m)
    | none =>
      let p := consultLoop rs ref
      (r :: p.1, p.2)

/-- Written from the spec's words (§4.1): "return the mutation of the first
rule (in precedence order) whose match predicate accepts it, or no match". -/
def firstMatchSpec (rules : List Rule) (ref : String) : Option Nat :=
  (rules.find? (fun r => (r.Match ref).isSome)).bind (fun r => r.Match ref)

/-! ## HTTP front door routing

`Handler.ServeHTTP` (handler.go lines 134–165).  Go's `strings.Split(path,
"/")` is standard-library code not under `src/`; it is embedded faithfully as
a structural split of the character list on `'/'` (Go strings are byte
slices; all constants involved are ASCII). -/

/-- Modelled from the spec: Go `strings.Split(s, "/")` — splits on every
occurrence of the separator; `Split("", "/") = [""]`. -/
def splitOnChar (c : Char) : List Char → List (List Char)
  | [] => [[]]
  | a :: as =>
    let r := splitOnChar c as
    if a = c then [] :: r
    else
      match r with
      | [] => [[a]]
      | g :: gs => (a :: g) :: gs

/-- The segment list `parts := strings.Split(r.URL.Path, "/")`
(handler.go line 150). -/
def mkParts (path : String) : List String :=
  (splitOnChar '/' path.data).map (fun l => ⟨l⟩)

/-- The check `strings.HasPrefix(path, "/v2/")` (handler.go line 140), at
the level of the underlying character list. -/
def hasV2 (path : String) : Bool := "/v2/".data.isPrefixOf path.data

/-- The check `strings.HasPrefix(tag, "sha256:")` (handler.go line 172), at
the level of the underlying character list. -/
def hasSha256 (tag : String) : Bool := "sha256:".data.isPrefixOf tag.data

/-- Outcome of the routing stage of `Handler.ServeHTTP`: which branch wrote a
response (or dispatched), carrying the parsed repository and final segment
for the two dispatch branches. -/
inductive RouteOut where
  | methodNotAllowed
  | notFound
  | okRoot
  | blobs (image hash : String)
  | manifests (image tag : String)
  deriving DecidableEq, Repr

/-- Routing of `Handler.ServeHTTP` (handler.go lines 134–165).  Returns `none`
exactly when the function falls through the `switch` with neither `blobs` nor
`manifests` as the second-to-last segment: no response is written at all. -/
def route (method path : String) : Option RouteOut :=
  if ¬ (method = "GET") ∧ ¬ (method = "HEAD") then some .methodNotAllowed
  else if ¬ hasV2 path then some .notFound
  else if path = "/v2/" then some .okRoot
  else
    let parts := mkParts path
    let n := parts.length
    if n < 4 then some .notFound
    else
      let image := String.intercalate "/" ((parts.drop 2).take (n - 4))
      let typ := parts.getD (n - 2) ""
      let last := parts.getD (n - 1) ""
      if typ = "blobs" then some (.blobs image last)
      else if typ = "manifests" then some (.manifests image last)
      else none


/-! ## Sorting and the dynamic rule cache

`NewHandler` (handler.go lines 38–66) converts every static config entry with
`pattern.NewRule` (any failure aborts construction) and sorts the result with
`sort.Slice(rules, rules[i].LessThan(rules[j]))`.  `Handler.getRules`
(lines 103–132) rebuilds the merged list on a cache miss and sorts it the
same way.  `sort.Slice` is Go standard-library code not under `src/`; its
documentation guarantees the result is sorted by `less` but explicitly does
NOT guarantee stability, so it is embedded as a relation. -/


/-- Non-strict precedence order on rules, `a.prec ≤ b.prec`. -/
def lePrec (a b : Rule) : Prop := a.prec ≤ b.prec

instance : DecidableRel lePrec := fun a b => Nat.decLe a.prec b.prec

instance : IsTotal Rule lePrec := ⟨fun a b => Nat.le_total a.prec b.prec⟩

instance : IsTrans Rule lePrec := ⟨fun _ _ _ => Nat.le_trans⟩

/-- Modelled from the spec / the Go standard library contract of
`sort.Slice(x, less)`: the output is a permutation of the input in which no
later element is `less` than an earlier one.  The documentation of
`sort.Slice` states the sort is not guaranteed to be stable, so any such
permutation is a permitted outcome. -/
def SortSpec (less : Rule → Rule → Bool) (input output : List Rule) : Prop :=
  input.Perm output ∧ output.Pairwise (fun a b => less b a = false)

/-- Written from the spec's words (§3: "ties are broken by stable input
order"): elements that compare equal in both directions keep their relative
input order in the output. -/
def TiesStable (less : Rule → Rule → Bool) (input output : List Rule) : Prop :=
  ∀ a b, a ∈ input → b ∈ input → less a b = false → less b a = false →
    input.indexOf a ≤ input.indexOf b → output.indexOf a ≤ output.indexOf b

/-- One concrete sorted permutation, used to show `sort.Slice`'s contract is
satisfiable (existence of an output for any input). -/
def sortByPrec (l : List Rule) : List Rule := l.insertionSort lePrec


/-- Construction `NewHandler` (handler.go lines 38–66): every static config entry must
convert via `pattern.NewRule` (an error aborts construction), and the
resulting slice is sorted in place by `sort.Slice` with `LessThan`; `out` is
the handler's static rule list. -/
inductive NewHandlerRel : List ImageSpec → List Rule → Prop where
  | mk (config : List ImageSpec) (rs out : List Rule) :
      config.mapM NewRule = some rs →
      SortSpec Rule.LessThan rs out →
      NewHandlerRel config out

/-- The mutable state of `Handler` relevant to rule resolution
(handler.go lines 26–36): the static `rules` list, the cached merged list
`cr` (`none` = invalidated/absent), and the informer `store` (`none` = no
clientset configured, otherwise the current cluster object listing). -/
structure HState where
  rules : List Rule
  cr : Option (List Rule)
  store : Option (List ImageSpec)
  deriving DecidableEq, Repr

/-- Invalidation `Handler.resetCR` (handler.go lines 97–101): clears the cached merged
list. -/
def resetCR (h : HState) : HState := { h with cr := none }

/-- Rule resolution `Handler.getRules` (handler.go lines 103–132), as a relation because of
the relational `sort.Slice` contract: with no store it returns the static
rules unchanged; with a store and a cached list it returns the cache; with a
store and no cache it lists the store, converts each object with
`pattern.NewRule` skipping failures (the `continue` on line 120), appends to
the static rules, sorts with `sort.Slice`, caches and returns the result. -/
inductive GetRules : HState → List Rule × HState → Prop where
  | noStore (h : HState) :
      h.store = none → GetRules h (h.rules, h)
  | cached (h : HState) (l : List ImageSpec) (c : List Rule) :
      h.store = some l → h.cr = some c → GetRules h (c, h)
  | rebuild (h : HState) (l : List ImageSpec) (out : List Rule) :
      h.store = some l → h.cr = none →
      SortSpec Rule.LessThan (h.rules ++ l.filterMap NewRule) out →
      GetRules h (out, { h with cr := some out })


/-! ## Manifest serving pipeline

`Handler.manifests` (handler.go lines 171–189), `Handler.build`'s sequential
(single-request) semantics, and `serveManifest` (lines 221–249).  The image
store (`imageBuilder`) is external to `src/`, so its path functions, build
outcome and build filesystem effect are modelled from the spec (§6). -/

/-- Modelled from the spec: the on-disk cache, reduced to which paths exist.
JSON decoding and `Stat` of an existing manifest are abstracted away — the
claims settled against this model only distinguish "file can be opened" from
"file cannot be opened" (404). -/
structure FS where
  files : String → Bool

/-- Modelled from the spec: `imageBuilder.BlobsPath(digest)` — some path
function keyed by the digest (§6: exact layout is an Image Store concern). -/
def BlobsPath (digest : String) : String := "blobs/" ++ digest

/-- Modelled from the spec: `imageBuilder.ManifestPath(repo, tag)` (§6). -/
def ManifestPath (image tag : String) : String :=
  "manifests/" ++ image ++ "/" ++ tag

/-- Response outcome of the manifest pipeline. -/
inductive HResp where
  | notFound
  | okFile (path : String)
  | errorBuild (msg : String)
  deriving DecidableEq, Repr

/-- The serve step `serveManifest` (handler.go lines 221–249): open the path — on failure
respond 404 (`http.NotFound`); on success stream the file (media-type
decoding and `Stat`, both on an open file, abstracted into `okFile`). -/
def serveManifest (fs : FS) (path : String) : HResp :=
  if fs.files path then .okFile path else .notFound

/-- Modelled from the spec: the Image Store collaborator (§6) —
`Build(ref, mutation) → error` as an arbitrary outcome function, and the
files a successful build writes as an arbitrary filesystem transformer. -/
structure BuildEnv where
  buildResult : String → Nat → Option String
  buildEffect : FS → String → Nat → FS

/-- The coordinator `Handler.build` (handler.go lines 191–219) in its sequential,
single-request semantics (no concurrent call holds the lock registry entry,
so `LoadOrStore` stores and the caller takes the builder path; the
concurrent semantics is the `Step` system below): resolve rules, scan for
the first match, call `image.Build` on it, return its error.  Result:
(returned error, Image-Store build call performed, filesystem after). -/
def buildSeq (env : BuildEnv) (rules : List Rule) (fs : FS)
    (image tag : String) : Option String × Option (String × Nat) × FS :=
  let ref := mkRef image tag
  match matchLoop rules ref with
  | none => (none, none, fs)
  | some m =>
    match env.buildResult ref m with
    | some err => (some err, some (ref, m), fs)
    | none => (none, some (ref, m), env.buildEffect fs ref m)

/-- Observable outcome of one `Handler.manifests` request: whether rule
resolution (`getRules`) ran, whether the build coordinator (`Handler.build`)
ran, which Image-Store build call it made, and the response. -/
structure MResult where
  getRulesCalled : Bool
  buildCalled : Bool
  storeBuild : Option (String × Nat)
  response : HResp
  deriving DecidableEq, Repr

/-- The manifest endpoint `Handler.manifests` (handler.go lines 171–189): a `sha256:`-prefixed
reference is served from the content-addressed blob path immediately; else
if the manifest file exists it is served; else `Handler.build` runs (which
resolves rules via `getRules`), a build error yields a 500
(`http.Error`, line 183), and otherwise the manifest path is served
whether or not a file was created. -/
def manifests (env : BuildEnv) (rules : List Rule) (fs : FS)
    (image tag : String) : MResult :=
  if hasSha256 tag then
    ⟨false, false, none, serveManifest fs (BlobsPath tag)⟩
  else if fs.files (ManifestPath image tag) then
    ⟨false, false, none, serveManifest fs (ManifestPath image tag)⟩
  else
    let r := buildSeq env rules fs image tag
    match r.1 with
    | some err => ⟨true, true, r.2.1, .errorBuild err⟩
    | none => ⟨true, true, r.2.1, serveManifest r.2.2 (ManifestPath image tag)⟩


/-! ## Concurrent semantics of Handler.build

Interleaving semantics of `n` request threads all executing
`Handler.build(image, tag)` (handler.go lines 191–219) for one shared
reference, the setting of the single-flight claims.  Each line of the Go
function is an atomic step of a labelled transition system.  The lock map
`h.buildMutex` (`pkg/atomic.SyncMap`, not under `src/`) is modelled from the
spec (§4.3, §9): `LoadOrStore` is one atomic create-if-absent that tells the
caller whether it created the entry.  `sync.RWMutex` is modelled from its Go
contract: `Lock` succeeds only with no writer and no readers, `RLock`
succeeds only while no writer holds the lock (the Go refinement that a
blocked writer also blocks new readers is dropped; that only removes
interleavings in which a waiter blocks longer, and no theorem below depends
on it).  Since all threads use the same reference, the registry holds at
most one key; lock instances are numbered by allocation order, and
`registry = some lid` means the map entry currently holds lock `lid`. -/

/-- State of one `sync.RWMutex` (modelled from the Go contract). -/
structure RW where
  writerHeld : Bool
  readers : Nat
  deriving DecidableEq, Repr

/-- Program counter of one thread in `Handler.build`: `start` is before the
`LoadOrStore` (line 194); `builderLock` is the builder path before
`mut.Lock()` (line 201); `building` holds the write lock, about to run rule
matching and possibly `image.Build`; `deleting`/`unlocking` are the two
halves of the deferred cleanup (lines 202–205) carrying the pending return
value; `doneB e` returned `e` from the builder path; `waiterRLock` is the
waiter path before `mut.RLock()` (line 196); `waiterHold` holds the read
lock, about to `RUnlock` and return; `doneW` returned `nil` from the waiter
path (line 198). -/
inductive PC where
  | start
  | builderLock (lid : Nat)
  | building (lid : Nat)
  | deleting (lid : Nat) (e : Option String)
  | unlocking (lid : Nat) (e : Option String)
  | doneB (e : Option String)
  | waiterRLock (lid : Nat)
  | waiterHold (lid : Nat)
  | doneW
  deriving DecidableEq, Repr

/-- Labels of atomic steps; `buildCall t lid e` is the Image-Store build call
`h.image.Build(ref, mutates)` (line 211) by thread `t` under lock `lid` with
outcome `e`, `noMatch` is the builder path when no rule matches (no
Image-Store call), the rest mirror the lock operations. -/
inductive Ev (n : Nat) where
  | loadStore (t : Fin n) (lid : Nat)
  | loadFound (t : Fin n) (lid : Nat)
  | wlock (t : Fin n) (lid : Nat)
  | buildCall (t : Fin n) (lid : Nat) (e : Option String)
  | noMatch (t : Fin n) (lid : Nat)
  | del (t : Fin n) (lid : Nat)
  | wunlock (t : Fin n) (lid : Nat)
  | rlock (t : Fin n) (lid : Nat)
  | runlock (t : Fin n) (lid : Nat)
  deriving DecidableEq, Repr

/-- Shared state: the lock-registry entry for the shared reference
(`none` = absent), the number of lock instances allocated so far, the state
of every lock instance, and each thread's program counter. -/
structure Sys (n : Nat) where
  registry : Option Nat
  numLocks : Nat
  lock : Nat → RW
  pcs : Fin n → PC

/-- Pointwise update of the lock-instance table. -/
def updL (f : Nat → RW) (i : Nat) (v : RW) : Nat → RW :=
  fun j => if j = i then v else f j

/-- Pointwise update of the thread table. -/
def updP {n : Nat} (f : Fin n → PC) (i : Fin n) (v : PC) : Fin n → PC :=
  fun j => if j = i then v else f j

/-- One atomic step of one thread of `Handler.build` (handler.go lines
191–219): `loadStore`/`loadFound` are the two outcomes of
`buildMutex.LoadOrStore(ref, ...)` (line 194); `wlock` is `mut.Lock()`
(line 201), enabled only when no writer and no readers hold lock `lid`;
`buildCall`/`noMatch` finish the critical section (lines 207–217), with an
arbitrary Image-Store outcome `e` in the first case; `del` is
`buildMutex.Delete(ref)` and `wunlock` is `mut.Unlock()` (lines 203–204);
`rlock` is `mut.RLock()` (line 196), enabled only while no writer holds the
lock; `runlock` is the deferred `mut.RUnlock()` before `return nil`
(lines 197–198). -/
inductive Step {n : Nat} : Sys n → Ev n → Sys n → Prop where
  | loadStore (s : Sys n) (t : Fin n) :
      s.pcs t = .start → s.registry = none →
      Step s (.loadStore t s.numLocks)
        ⟨some s.numLocks, s.numLocks + 1,
          updL s.lock s.numLocks ⟨false, 0⟩,
          updP s.pcs t (.builderLock s.numLocks)⟩
  | loadFound (s : Sys n) (t : Fin n) (lid : Nat) :
      s.pcs t = .start → s.registry = some lid →
      Step s (.loadFound t lid)
        { s with pcs := updP s.pcs t (.waiterRLock lid) }
  | wlock (s : Sys n) (t : Fin n) (lid : Nat) :
      s.pcs t = .builderLock lid →
      (s.lock lid).writerHeld = false → (s.lock lid).readers = 0 →
      Step s (.wlock t lid)
        { s with lock := updL s.lock lid ⟨true, 0⟩,
                 pcs := updP s.pcs t (.building lid) }
  | buildCall (s : Sys n) (t : Fin n) (lid : Nat) (e : Option String) :
      s.pcs t = .building lid →
      Step s (.buildCall t lid e)
        { s with pcs := updP s.pcs t (.deleting lid e) }
  | noMatch (s : Sys n) (t : Fin n) (lid : Nat) :
      s.pcs t = .building lid →
      Step s (.noMatch t lid)
        { s with pcs := updP s.pcs t (.deleting lid none) }
  | del (s : Sys n) (t : Fin n) (lid : Nat) (e : Option String) :
      s.pcs t = .deleting lid e →
      Step s (.del t lid)
        { s with registry := none, pcs := updP s.pcs t (.unlocking lid e) }
  | wunlock (s : Sys n) (t : Fin n) (lid : Nat) (e : Option String) :
      s.pcs t = .unlocking lid e →
      Step s (.wunlock t lid)
        { s with lock := updL s.lock lid ⟨false, (s.lock lid).readers⟩,
                 pcs := updP s.pcs t (.doneB e) }
  | rlock (s : Sys n) (t : Fin n) (lid : Nat) :
      s.pcs t = .waiterRLock lid →
      (s.lock lid).writerHeld = false →
      Step s (.rlock t lid)
        { s with lock := updL s.lock lid ⟨false, (s.lock lid).readers + 1⟩,
                 pcs := updP s.pcs t (.waiterHold lid) }
  | runlock (s : Sys n) (t : Fin n) (lid : Nat) :
      s.pcs t = .waiterHold lid →
      Step s (.runlock t lid)
        { s with lock := updL s.lock lid
                   ⟨(s.lock lid).writerHeld, (s.lock lid).readers - 1⟩,
                 pcs := updP s.pcs t .doneW }

/-- Reachability with the recorded event trace. -/
inductive Reaches {n : Nat} : Sys n → List (Ev n) → Sys n → Prop where
  | refl (s : Sys n) : Reaches s [] s
  | snoc {s s1 s2 : Sys n} {evs : List (Ev n)} {e : Ev n} :
      Reaches s evs s1 → Step s1 e s2 → Reaches s (evs ++ [e]) s2

/-- Initial state: empty registry, no lock instances, all threads about to
call `Handler.build` for the same previously-unbuilt reference. -/
def init (n : Nat) : Sys n :=
  ⟨none, 0, fun _ => ⟨false, 0⟩, fun _ => .start⟩

/-- The lock instance a program counter refers to, if any. -/
def pcLid : PC → Option Nat
  | .builderLock l => some l
  | .building l => some l
  | .deleting l _ => some l
  | .unlocking l _ => some l
  | .waiterRLock l => some l
  | .waiterHold l => some l
  | .start => none
  | .doneB _ => none
  | .doneW => none

/-- The program counter refers to lock instance `lid`. -/
def mentions (p : PC) (lid : Nat) : Prop := pcLid p = some lid

/-- Builder of lock `lid` that has not yet passed the build point. -/
def preOwner (p : PC) (lid : Nat) : Prop :=
  p = .builderLock lid ∨ p = .building lid

/-- Builder of lock `lid` past the build point, before releasing. -/
def postOwner (p : PC) (lid : Nat) : Prop :=
  (∃ e, p = .deleting lid e) ∨ (∃ e, p = .unlocking lid e)

/-- The thread is the builder (creator) of lock instance `lid`. -/
def ownerPC (p : PC) (lid : Nat) : Prop := preOwner p lid ∨ postOwner p lid

/-- The thread is inside the builder critical section of lock `lid`
(between `mut.Lock()` and `mut.Unlock()`). -/
def critPC (p : PC) (lid : Nat) : Prop :=
  p = .building lid ∨ (∃ e, p = .deleting lid e) ∨ (∃ e, p = .unlocking lid e)

/-- The thread took the waiter path of `Handler.build`. -/
def waiterTrack (p : PC) : Prop :=
  (∃ lid, p = .waiterRLock lid ∨ p = .waiterHold lid) ∨ p = .doneW

/-- The value returned by the thread's `Handler.build` call: `none` while
still running, `some e` once returned with error `e` (`some none` = returned
`nil`). -/
def result : PC → Option (Option String)
  | .doneB e => some e
  | .doneW => some none
  | _ => none

/-- Whether an event is an Image-Store build call under lock `lid`. -/
def isBuildOn {n : Nat} (lid : Nat) : Ev n → Bool
  | .buildCall _ l _ => l == lid
  | _ => false

/-- Whether an event is an Image-Store build call. -/
def isBuildEv {n : Nat} : Ev n → Bool
  | .buildCall _ _ _ => true
  | _ => false

/-- Number of Image-Store build calls under lock `lid` in a trace. -/
def cnt {n : Nat} (evs : List (Ev n)) (lid : Nat) : Nat :=
  (evs.filter (isBuildOn lid)).length

/-- Inductive invariant of the system: lock instances at or above the
allocation counter are unreferenced and unbuilt; each lock instance has at
most one builder; a lock whose builder has not reached the build point has
no build call yet, and no lock ever has more than one; a thread in the
builder critical section implies the write lock is held; a thread that took
the waiter path stays on it; a recorded build call pins its thread to the
post-build builder states with the same outcome; the registry only holds
allocated locks. -/
structure Inv {n : Nat} (s : Sys n) (evs : List (Ev n)) : Prop where
  fresh_pc : ∀ lid (t : Fin n), s.numLocks ≤ lid → ¬ mentions (s.pcs t) lid
  fresh_cnt : ∀ lid, s.numLocks ≤ lid → cnt evs lid = 0
  uniq : ∀ lid (t u : Fin n),
    ownerPC (s.pcs t) lid → ownerPC (s.pcs u) lid → t = u
  precnt : ∀ lid (t : Fin n), preOwner (s.pcs t) lid → cnt evs lid = 0
  bound : ∀ lid, cnt evs lid ≤ 1
  critW : ∀ lid (t : Fin n), critPC (s.pcs t) lid →
    (s.lock lid).writerHeld = true
  wtrack : ∀ (t : Fin n) lid, Ev.loadFound t lid ∈ evs →
    waiterTrack (s.pcs t)
  btrack : ∀ (t : Fin n) lid e, Ev.buildCall t lid e ∈ evs →
    s.pcs t = .deleting lid e ∨ s.pcs t = .unlocking lid e ∨
      s.pcs t = .doneB e
  reg_lt : ∀ lid, s.registry = some lid → lid < s.numLocks


/-- Interleaving refuting C1's blocking guarantee: thread 0 stores the lock
entry but has not yet acquired the write lock; thread 1 finds the entry,
takes the read lock immediately, releases it and returns — before any build
has happened. -/
def cexTrace : List (Ev 2) :=
  [.loadStore 0 0, .loadFound 1 0, .rlock 1 0, .runlock 1 0]

/-- State after the first event of `cexTrace`. -/
def sCex1 : Sys 2 :=
  ⟨some 0, 1, updL (fun _ => ⟨false, 0⟩) 0 ⟨false, 0⟩,
    updP (fun _ => .start) 0 (.builderLock 0)⟩

/-- State after the second event of `cexTrace`. -/
def sCex2 : Sys 2 := { sCex1 with pcs := updP sCex1.pcs 1 (.waiterRLock 0) }

/-- State after the third event of `cexTrace`. -/
def sCex3 : Sys 2 :=
  { sCex2 with lock := updL sCex2.lock 0 ⟨false, (sCex2.lock 0).readers + 1⟩,
               pcs := updP sCex2.pcs 1 (.waiterHold 0) }

/-- Final state of `cexTrace`: the waiter is done, the builder still holds
no lock, no build has occurred. -/
def sCex4 : Sys 2 :=
  { sCex3 with lock := updL sCex3.lock 0
                 ⟨(sCex3.lock 0).writerHeld, (sCex3.lock 0).readers - 1⟩,
               pcs := updP sCex3.pcs 1 .doneW }


/-- A complete two-thread run in which the builder's Image-Store build fails
with error `boom` while a waiter blocks on the read lock until the builder
releases, then returns `nil` (spec §8's builder-500/waiter-404 scenario). -/
def trB : List (Ev 2) :=
  [.loadStore 0 0, .wlock 0 0, .loadFound 1 0, .buildCall 0 0 (some "boom"),
    .del 0 0, .wunlock 0 0, .rlock 1 0, .runlock 1 0]

/-- State along `trB` after event 2. -/
def sB2 : Sys 2 :=
  { sCex1 with lock := updL sCex1.lock 0 ⟨true, 0⟩,
               pcs := updP sCex1.pcs 0 (.building 0) }

/-- State along `trB` after event 3. -/
def sB3 : Sys 2 := { sB2 with pcs := updP sB2.pcs 1 (.waiterRLock 0) }

/-- State along `trB` after event 4. -/
def sB4 : Sys 2 :=
  { sB3 with pcs := updP sB3.pcs 0 (.deleting 0 (some "boom")) }

/-- State along `trB` after event 5. -/
def sB5 : Sys 2 :=
  { sB4 with registry := none,
             pcs := updP sB4.pcs 0 (.unlocking 0 (some "boom")) }

/-- State along `trB` after event 6. -/
def sB6 : Sys 2 :=
  { sB5 with lock := updL sB5.lock 0 ⟨false, (sB5.lock 0).readers⟩,
             pcs := updP sB5.pcs 0 (.doneB (some "boom")) }

/-- State along `trB` after event 7. -/
def sB7 : Sys 2 :=
  { sB6 with lock := updL sB6.lock 0 ⟨false, (sB6.lock 0).readers + 1⟩,
             pcs := updP sB6.pcs 1 (.waiterHold 0) }

/-- State along `trB` after event 8. -/
def sB8 : Sys 2 :=
  { sB7 with lock := updL sB7.lock 0
               ⟨(sB7.lock 0).writerHeld, (sB7.lock 0).readers - 1⟩,
             pcs := updP sB7.pcs 1 .doneW }


/-! ## Example data used by witnesses and counterexamples -/

/-- A rule whose match predicate accepts the digest-style reference
`img:sha256:abc`. -/
def rDigest : Rule := ⟨0, ["img:sha256:abc"], 3⟩

/-- Trivial Image Store environment: every build succeeds and writes
nothing. -/
def envTriv : BuildEnv := ⟨fun _ _ => none, fun fs _ _ => fs⟩

/-- Empty filesystem. -/
def fsEmpty : FS := ⟨fun _ => false⟩

/-- Two rules with equal precedence keys but distinct mutations: a tie for
`Rule.LessThan`. -/
def rTieA : Rule := ⟨0, [], 1⟩

/-- Second tied rule, see `rTieA`. -/
def rTieB : Rule := ⟨0, [], 2⟩

/-- Config entry converting to `rTieA`. -/
def sTieA : ImageSpec := ⟨true, 0, [], 1⟩

/-- Config entry converting to `rTieB`. -/
def sTieB : ImageSpec := ⟨true, 0, [], 2⟩

/-- A malformed cluster object (fails `pattern.NewRule` conversion). -/
def sBad : ImageSpec := ⟨false, 3, ["x:y"], 7⟩

/-- A well-formed cluster object. -/
def sGood : ImageSpec := ⟨true, 0, ["x:y"], 9⟩

/-- The rule `sGood` converts to. -/
def rGood : Rule := ⟨0, ["x:y"], 9⟩


/-! ## Theorems -/


theorem lessThan_eq_false_iff (a b : Rule) :
    Rule.LessThan b a = false ↔ lePrec a b := by
  constructor
  · intro h
    exact Nat.not_lt.mp (of_decide_eq_false h)
  · intro h
    exact decide_eq_false (Nat.not_lt.mpr h)

theorem sortSpec_sortByPrec (l : List Rule) :
    SortSpec Rule.LessThan l (sortByPrec l) := by
  constructor
  · exact (List.perm_insertionSort lePrec l).symm
  · exact (List.sorted_insertionSort lePrec l).imp
      (fun h => (lessThan_eq_false_iff _ _).mpr h)


theorem preOwner_mentions {p : PC} {lid : Nat} (h : preOwner p lid) :
    mentions p lid := by
  rcases h with rfl | rfl <;> rfl

theorem postOwner_mentions {p : PC} {lid : Nat} (h : postOwner p lid) :
    mentions p lid := by
  rcases h with ⟨e, rfl⟩ | ⟨e, rfl⟩ <;> rfl

theorem ownerPC_mentions {p : PC} {lid : Nat} (h : ownerPC p lid) :
    mentions p lid := by
  rcases h with h | h
  · exact preOwner_mentions h
  · exact postOwner_mentions h

theorem critPC_ownerPC {p : PC} {lid : Nat} (h : critPC p lid) :
    ownerPC p lid := by
  rcases h with rfl | ⟨e, rfl⟩ | ⟨e, rfl⟩
  · exact Or.inl (Or.inr rfl)
  · exact Or.inr (Or.inl ⟨e, rfl⟩)
  · exact Or.inr (Or.inr ⟨e, rfl⟩)

theorem critPC_mentions {p : PC} {lid : Nat} (h : critPC p lid) :
    mentions p lid := ownerPC_mentions (critPC_ownerPC h)

theorem cnt_append_nonbuild {n : Nat} (evs : List (Ev n)) (e : Ev n)
    (lid : Nat) (h : isBuildOn lid e = false) :
    cnt (evs ++ [e]) lid = cnt evs lid := by
  simp [cnt, List.filter_append, h]

theorem cnt_append_build {n : Nat} (evs : List (Ev n)) (t : Fin n)
    (lid : Nat) (e0 : Option String) :
    cnt (evs ++ [Ev.buildCall t lid e0]) lid = cnt evs lid + 1 := by
  simp [cnt, List.filter_append, isBuildOn]

theorem cnt_append_build_ne {n : Nat} (evs : List (Ev n)) (t : Fin n)
    (l lid : Nat) (e0 : Option String) (h : ¬ l = lid) :
    cnt (evs ++ [Ev.buildCall t l e0]) lid = cnt evs lid := by
  simp [cnt, List.filter_append, isBuildOn, h]

theorem updP_same {n : Nat} (f : Fin n → PC) (t : Fin n) (v : PC) :
    updP f t v t = v := by
  simp [updP]

theorem updP_ne {n : Nat} (f : Fin n → PC) {t u : Fin n} (v : PC)
    (h : ¬ u = t) : updP f t v u = f u := by
  simp [updP, h]

theorem updL_same (f : Nat → RW) (i : Nat) (v : RW) : updL f i v i = v := by
  simp [updL]

theorem updL_ne (f : Nat → RW) {i j : Nat} (v : RW) (h : ¬ j = i) :
    updL f i v j = f j := by
  simp [updL, h]

theorem mentions_some {p : PC} {lid L : Nat} (h : mentions p lid)
    (hp : pcLid p = some L) : L = lid := by
  unfold mentions at h
  rw [hp] at h
  exact Option.some.inj h

theorem not_mentions_of_pcLid_none {p : PC} {lid : Nat}
    (hp : pcLid p = none) : ¬ mentions p lid := by
  unfold mentions
  rw [hp]
  exact fun h => Option.noConfusion h

theorem waiterTrack_not_start : ¬ waiterTrack PC.start := by
  rintro (⟨lid, h | h⟩ | h) <;> cases h


/-- The invariant holds initially. -/
theorem inv_init (n : Nat) : Inv (init n) [] := by
  refine ⟨?_, ?_, ?_, ?_, ?_, ?_, ?_, ?_, ?_⟩ <;>
    simp [init, cnt, mentions, pcLid, ownerPC, preOwner, postOwner, critPC,
      waiterTrack]

/-- The invariant is preserved by every step. -/
theorem inv_step {n : Nat} {s s2 : Sys n} {evs : List (Ev n)} {e : Ev n}
    (hinv : Inv s evs) (hstep : Step s e s2) : Inv s2 (evs ++ [e]) := by
  obtain ⟨fPC, fCNT, uq, pc0, bd, cw, wt, bt, rl⟩ := hinv
  match hstep with
  | .loadStore _ t hpc hreg =>
    have hcnt : ∀ lid,
        cnt (evs ++ [Ev.loadStore t s.numLocks]) lid = cnt evs lid :=
      fun lid => cnt_append_nonbuild evs _ lid rfl
    refine ⟨?_, ?_, ?_, ?_, ?_, ?_, ?_, ?_, ?_⟩
    · intro lid u hle
      dsimp only at hle ⊢
      by_cases hu : u = t
      · subst hu
        rw [updP_same]
        intro hm
        have h1 : s.numLocks = lid := mentions_some hm rfl
        omega
      · rw [updP_ne _ _ hu]
        exact fPC lid u (by omega)
    · intro lid hle
      dsimp only at hle
      rw [hcnt]
      exact fCNT lid (by omega)
    · intro lid u v hou hov
      dsimp only at hou hov
      by_cases h1 : u = t
      · subst h1
        by_cases h2 : v = u
        · exact h2.symm
        · rw [updP_same] at hou
          rw [updP_ne _ _ h2] at hov
          have hL : s.numLocks = lid := mentions_some (ownerPC_mentions hou) rfl
          subst hL
          exact absurd (ownerPC_mentions hov) (fPC _ v (Nat.le_refl _))
      · by_cases h2 : v = t
        · subst h2
          rw [updP_same] at hov
          rw [updP_ne _ _ h1] at hou
          have hL : s.numLocks = lid := mentions_some (ownerPC_mentions hov) rfl
          subst hL
          exact absurd (ownerPC_mentions hou) (fPC _ u (Nat.le_refl _))
        · rw [updP_ne _ _ h1] at hou
          rw [updP_ne _ _ h2] at hov
          exact uq lid u v hou hov
    · intro lid u hpre
      dsimp only at hpre
      rw [hcnt]
      by_cases hu : u = t
      · subst hu
        rw [updP_same] at hpre
        have hL : s.numLocks = lid := mentions_some (preOwner_mentions hpre) rfl
        exact fCNT lid (by omega)
      · rw [updP_ne _ _ hu] at hpre
        exact pc0 lid u hpre
    · intro lid
      rw [hcnt]
      exact bd lid
    · intro lid u hcrit
      dsimp only at hcrit ⊢
      by_cases hu : u = t
      · subst hu
        rw [updP_same] at hcrit
        rcases hcrit with h | ⟨e1, h⟩ | ⟨e1, h⟩ <;> cases h
      · rw [updP_ne _ _ hu] at hcrit
        have hL : lid < s.numLocks := by
          by_contra hge
          exact fPC lid u (by omega) (critPC_mentions hcrit)
        rw [updL_ne _ _ (by omega)]
        exact cw lid u hcrit
    · intro u lid hmem
      dsimp only
      rcases List.mem_append.mp hmem with h | h
      · have hw := wt u lid h
        by_cases hu : u = t
        · subst hu
          rw [hpc] at hw
          exact absurd hw waiterTrack_not_start
        · rw [updP_ne _ _ hu]
          exact hw
      · cases List.mem_singleton.mp h
    · intro u lid e1 hmem
      dsimp only
      rcases List.mem_append.mp hmem with h | h
      · have hb := bt u lid e1 h
        by_cases hu : u = t
        · subst hu
          rw [hpc] at hb
          rcases hb with h2 | h2 | h2 <;> cases h2
        · rw [updP_ne _ _ hu]
          exact hb
      · cases List.mem_singleton.mp h
    · intro lid hr2
      dsimp only at hr2 ⊢
      cases Option.some.inj hr2
      omega
  | .loadFound _ t lid0 hpc hreg =>
    have hlt : lid0 < s.numLocks := rl lid0 hreg
    have hcnt : ∀ lid,
        cnt (evs ++ [Ev.loadFound t lid0]) lid = cnt evs lid :=
      fun lid => cnt_append_nonbuild evs _ lid rfl
    refine ⟨?_, ?_, ?_, ?_, ?_, ?_, ?_, ?_, ?_⟩
    · intro lid u hle
      dsimp only at hle ⊢
      by_cases hu : u = t
      · subst hu
        rw [updP_same]
        intro hm
        have h1 : lid0 = lid := mentions_some hm rfl
        omega
      · rw [updP_ne _ _ hu]
        exact fPC lid u hle
    · intro lid hle
      dsimp only at hle
      rw [hcnt]
      exact fCNT lid hle
    · intro lid u v hou hov
      dsimp only at hou hov
      by_cases h1 : u = t
      · subst h1
        rw [updP_same] at hou
        rcases hou with (h | h) | (⟨e1, h⟩ | ⟨e1, h⟩) <;> cases h
      · by_cases h2 : v = t
        · subst h2
          rw [updP_same] at hov
          rcases hov with (h | h) | (⟨e1, h⟩ | ⟨e1, h⟩) <;> cases h
        · rw [updP_ne _ _ h1] at hou
          rw [updP_ne _ _ h2] at hov
          exact uq lid u v hou hov
    · intro lid u hpre
      dsimp only at hpre
      rw [hcnt]
      by_cases hu : u = t
      · subst hu
        rw [updP_same] at hpre
        rcases hpre with h | h <;> cases h
      · rw [updP_ne _ _ hu] at hpre
        exact pc0 lid u hpre
    · intro lid
      rw [hcnt]
      exact bd lid
    · intro lid u hcrit
      dsimp only at hcrit ⊢
      by_cases hu : u = t
      · subst hu
        rw [updP_same] at hcrit
        rcases hcrit with h | ⟨e1, h⟩ | ⟨e1, h⟩ <;> cases h
      · rw [updP_ne _ _ hu] at hcrit
        exact cw lid u hcrit
    · intro u lid hmem
      dsimp only
      rcases List.mem_append.mp hmem with h | h
      · have hw := wt u lid h
        by_cases hu : u = t
        · subst hu
          rw [hpc] at hw
          exact absurd hw waiterTrack_not_start
        · rw [updP_ne _ _ hu]
          exact hw
      · cases List.mem_singleton.mp h
        rw [updP_same]
        exact Or.inl ⟨lid0, Or.inl rfl⟩
    · intro u lid e1 hmem
      dsimp only
      rcases List.mem_append.mp hmem with h | h
      · have hb := bt u lid e1 h
        by_cases hu : u = t
        · subst hu
          rw [hpc] at hb
          rcases hb with h2 | h2 | h2 <;> cases h2
        · rw [updP_ne _ _ hu]
          exact hb
      · cases List.mem_singleton.mp h
    · intro lid hr2
      dsimp only at hr2 ⊢
      exact rl lid hr2
  | .wlock _ t lid0 hpc hw hr =>
    have hlt : lid0 < s.numLocks := by
      by_contra hge
      exact fPC lid0 t (by omega) (by rw [hpc]; rfl)
    have hownt : ownerPC (s.pcs t) lid0 := by
      rw [hpc]
      exact Or.inl (Or.inl rfl)
    have hcnt : ∀ lid, cnt (evs ++ [Ev.wlock t lid0]) lid = cnt evs lid :=
      fun lid => cnt_append_nonbuild evs _ lid rfl
    refine ⟨?_, ?_, ?_, ?_, ?_, ?_, ?_, ?_, ?_⟩
    · intro lid u hle
      dsimp only at hle ⊢
      by_cases hu : u = t
      · subst hu
        rw [updP_same]
        intro hm
        have h1 : lid0 = lid := mentions_some hm rfl
        omega
      · rw [updP_ne _ _ hu]
        exact fPC lid u hle
    · intro lid hle
      dsimp only at hle
      rw [hcnt]
      exact fCNT lid hle
    · intro lid u v hou hov
      dsimp only at hou hov
      by_cases h1 : u = t
      · subst h1
        rw [updP_same] at hou
        have hL : lid0 = lid := mentions_some (ownerPC_mentions hou) rfl
        subst hL
        by_cases h2 : v = u
        · exact h2.symm
        · rw [updP_ne _ _ h2] at hov
          exact (uq lid0 v u hov hownt).symm
      · by_cases h2 : v = t
        · subst h2
          rw [updP_same] at hov
          have hL : lid0 = lid := mentions_some (ownerPC_mentions hov) rfl
          subst hL
          rw [updP_ne _ _ h1] at hou
          exact uq lid0 u v hou hownt
        · rw [updP_ne _ _ h1] at hou
          rw [updP_ne _ _ h2] at hov
          exact uq lid u v hou hov
    · intro lid u hpre
      dsimp only at hpre
      rw [hcnt]
      by_cases hu : u = t
      · subst hu
        rw [updP_same] at hpre
        rcases hpre with h | h <;> cases h
        exact pc0 lid0 u (by rw [hpc]; exact Or.inl rfl)
      · rw [updP_ne _ _ hu] at hpre
        exact pc0 lid u hpre
    · intro lid
      rw [hcnt]
      exact bd lid
    · intro lid u hcrit
      dsimp only at hcrit ⊢
      by_cases hu : u = t
      · subst hu
        rw [updP_same] at hcrit
        rcases hcrit with h | ⟨e1, h⟩ | ⟨e1, h⟩ <;> cases h
        rw [updL_same]
      · rw [updP_ne _ _ hu] at hcrit
        by_cases hl : lid = lid0
        · subst hl
          exact absurd (cw lid u hcrit) (by rw [hw]; exact Bool.false_ne_true)
        · rw [updL_ne _ _ hl]
          exact cw lid u hcrit
    · intro u lid hmem
      dsimp only
      rcases List.mem_append.mp hmem with h | h
      · have hw2 := wt u lid h
        by_cases hu : u = t
        · subst hu
          rw [hpc] at hw2
          rcases hw2 with ⟨l, h2 | h2⟩ | h2 <;> cases h2
        · rw [updP_ne _ _ hu]
          exact hw2
      · cases List.mem_singleton.mp h
    · intro u lid e1 hmem
      dsimp only
      rcases List.mem_append.mp hmem with h | h
      · have hb := bt u lid e1 h
        by_cases hu : u = t
        · subst hu
          rw [hpc] at hb
          rcases hb with h2 | h2 | h2 <;> cases h2
        · rw [updP_ne _ _ hu]
          exact hb
      · cases List.mem_singleton.mp h
    · intro lid hr2
      dsimp only at hr2 ⊢
      exact rl lid hr2
  | .buildCall _ t lid0 e0 hpc =>
    have hlt : lid0 < s.numLocks := by
      by_contra hge
      exact fPC lid0 t (by omega) (by rw [hpc]; rfl)
    have hownt : ownerPC (s.pcs t) lid0 := by
      rw [hpc]
      exact Or.inl (Or.inr rfl)
    refine ⟨?_, ?_, ?_, ?_, ?_, ?_, ?_, ?_, ?_⟩
    · intro lid u hle
      dsimp only at hle ⊢
      by_cases hu : u = t
      · subst hu
        rw [updP_same]
        intro hm
        have h1 : lid0 = lid := mentions_some hm rfl
        omega
      · rw [updP_ne _ _ hu]
        exact fPC lid u hle
    · intro lid hle
      dsimp only at hle
      rw [cnt_append_build_ne evs t lid0 lid e0 (by omega)]
      exact fCNT lid hle
    · intro lid u v hou hov
      dsimp only at hou hov
      by_cases h1 : u = t
      · subst h1
        rw [updP_same] at hou
        have hL : lid0 = lid := mentions_some (ownerPC_mentions hou) rfl
        subst hL
        by_cases h2 : v = u
        · exact h2.symm
        · rw [updP_ne _ _ h2] at hov
          exact (uq lid0 v u hov hownt).symm
      · by_cases h2 : v = t
        · subst h2
          rw [updP_same] at hov
          have hL : lid0 = lid := mentions_some (ownerPC_mentions hov) rfl
          subst hL
          rw [updP_ne _ _ h1] at hou
          exact uq lid0 u v hou hownt
        · rw [updP_ne _ _ h1] at hou
          rw [updP_ne _ _ h2] at hov
          exact uq lid u v hou hov
    · intro lid u hpre
      dsimp only at hpre
      by_cases hu : u = t
      · subst hu
        rw [updP_same] at hpre
        rcases hpre with h | h <;> cases h
      · rw [updP_ne _ _ hu] at hpre
        by_cases hl : lid0 = lid
        · subst hl
          exact absurd (uq lid0 u t (Or.inl hpre) hownt) hu
        · rw [cnt_append_build_ne evs t lid0 lid e0 hl]
          exact pc0 lid u hpre
    · intro lid
      by_cases hl : lid0 = lid
      · subst hl
        rw [cnt_append_build evs t lid0 e0]
        have h0 : cnt evs lid0 = 0 :=
          pc0 lid0 t (by rw [hpc]; exact Or.inr rfl)
        omega
      · rw [cnt_append_build_ne evs t lid0 lid e0 hl]
        exact bd lid
    · intro lid u hcrit
      dsimp only at hcrit ⊢
      by_cases hu : u = t
      · subst hu
        rw [updP_same] at hcrit
        rcases hcrit with h | ⟨e1, h⟩ | ⟨e1, h⟩ <;> cases h
        exact cw lid0 u (by rw [hpc]; exact Or.inl rfl)
      · rw [updP_ne _ _ hu] at hcrit
        exact cw lid u hcrit
    · intro u lid hmem
      dsimp only
      rcases List.mem_append.mp hmem with h | h
      · have hw2 := wt u lid h
        by_cases hu : u = t
        · subst hu
          rw [hpc] at hw2
          rcases hw2 with ⟨l, h2 | h2⟩ | h2 <;> cases h2
        · rw [updP_ne _ _ hu]
          exact hw2
      · cases List.mem_singleton.mp h
    · intro u lid e1 hmem
      dsimp only
      rcases List.mem_append.mp hmem with h | h
      · have hb := bt u lid e1 h
        by_cases hu : u = t
        · subst hu
          rw [hpc] at hb
          rcases hb with h2 | h2 | h2 <;> cases h2
        · rw [updP_ne _ _ hu]
          exact hb
      · cases List.mem_singleton.mp h
        rw [updP_same]
        exact Or.inl rfl
    · intro lid hr2
      dsimp only at hr2 ⊢
      exact rl lid hr2
  | .noMatch _ t lid0 hpc =>
    have hlt : lid0 < s.numLocks := by
      by_contra hge
      exact fPC lid0 t (by omega) (by rw [hpc]; rfl)
    have hownt : ownerPC (s.pcs t) lid0 := by
      rw [hpc]
      exact Or.inl (Or.inr rfl)
    have hcnt : ∀ lid, cnt (evs ++ [Ev.noMatch t lid0]) lid = cnt evs lid :=
      fun lid => cnt_append_nonbuild evs _ lid rfl
    refine ⟨?_, ?_, ?_, ?_, ?_, ?_, ?_, ?_, ?_⟩
    · intro lid u hle
      dsimp only at hle ⊢
      by_cases hu : u = t
      · subst hu
        rw [updP_same]
        intro hm
        have h1 : lid0 = lid := mentions_some hm rfl
        omega
      · rw [updP_ne _ _ hu]
        exact fPC lid u hle
    · intro lid hle
      dsimp only at hle
      rw [hcnt]
      exact fCNT lid hle
    · intro lid u v hou hov
      dsimp only at hou hov
      by_cases h1 : u = t
      · subst h1
        rw [updP_same] at hou
        have hL : lid0 = lid := mentions_some (ownerPC_mentions hou) rfl
        subst hL
        by_cases h2 : v = u
        · exact h2.symm
        · rw [updP_ne _ _ h2] at hov
          exact (uq lid0 v u hov hownt).symm
      · by_cases h2 : v = t
        · subst h2
          rw [updP_same] at hov
          have hL : lid0 = lid := mentions_some (ownerPC_mentions hov) rfl
          subst hL
          rw [updP_ne _ _ h1] at hou
          exact uq lid0 u v hou hownt
        · rw [updP_ne _ _ h1] at hou
          rw [updP_ne _ _ h2] at hov
          exact uq lid u v hou hov
    · intro lid u hpre
      dsimp only at hpre
      rw [hcnt]
      by_cases hu : u = t
      · subst hu
        rw [updP_same] at hpre
        rcases hpre with h | h <;> cases h
      · rw [updP_ne _ _ hu] at hpre
        exact pc0 lid u hpre
    · intro lid
      rw [hcnt]
      exact bd lid
    · intro lid u hcrit
      dsimp only at hcrit ⊢
      by_cases hu : u = t
      · subst hu
        rw [updP_same] at hcrit
        rcases hcrit with h | ⟨e1, h⟩ | ⟨e1, h⟩ <;> cases h
        exact cw lid0 u (by rw [hpc]; exact Or.inl rfl)
      · rw [updP_ne _ _ hu] at hcrit
        exact cw lid u hcrit
    · intro u lid hmem
      dsimp only
      rcases List.mem_append.mp hmem with h | h
      · have hw2 := wt u lid h
        by_cases hu : u = t
        · subst hu
          rw [hpc] at hw2
          rcases hw2 with ⟨l, h2 | h2⟩ | h2 <;> cases h2
        · rw [updP_ne _ _ hu]
          exact hw2
      · cases List.mem_singleton.mp h
    · intro u lid e1 hmem
      dsimp only
      rcases List.mem_append.mp hmem with h | h
      · have hb := bt u lid e1 h
        by_cases hu : u = t
        · subst hu
          rw [hpc] at hb
          rcases hb with h2 | h2 | h2 <;> cases h2
        · rw [updP_ne _ _ hu]
          exact hb
      · cases List.mem_singleton.mp h
    · intro lid hr2
      dsimp only at hr2 ⊢
      exact rl lid hr2
  | .del _ t lid0 e0 hpc =>
    have hlt : lid0 < s.numLocks := by
      by_contra hge
      exact fPC lid0 t (by omega) (by rw [hpc]; rfl)
    have hownt : ownerPC (s.pcs t) lid0 := by
      rw [hpc]
      exact Or.inr (Or.inl ⟨e0, rfl⟩)
    have hcnt : ∀ lid, cnt (evs ++ [Ev.del t lid0]) lid = cnt evs lid :=
      fun lid => cnt_append_nonbuild evs _ lid rfl
    refine ⟨?_, ?_, ?_, ?_, ?_, ?_, ?_, ?_, ?_⟩
    · intro lid u hle
      dsimp only at hle ⊢
      by_cases hu : u = t
      · subst hu
        rw [updP_same]
        intro hm
        have h1 : lid0 = lid := mentions_some hm rfl
        omega
      · rw [updP_ne _ _ hu]
        exact fPC lid u hle
    · intro lid hle
      dsimp only at hle
      rw [hcnt]
      exact fCNT lid hle
    · intro lid u v hou hov
      dsimp only at hou hov
      by_cases h1 : u = t
      · subst h1
        rw [updP_same] at hou
        have hL : lid0 = lid := mentions_some (ownerPC_mentions hou) rfl
        subst hL
        by_cases h2 : v = u
        · exact h2.symm
        · rw [updP_ne _ _ h2] at hov
          exact (uq lid0 v u hov hownt).symm
      · by_cases h2 : v = t
        · subst h2
          rw [updP_same] at hov
          have hL : lid0 = lid := mentions_some (ownerPC_mentions hov) rfl
          subst hL
          rw [updP_ne _ _ h1] at hou
          exact uq lid0 u v hou hownt
        · rw [updP_ne _ _ h1] at hou
          rw [updP_ne _ _ h2] at hov
          exact uq lid u v hou hov
    · intro lid u hpre
      dsimp only at hpre
      rw [hcnt]
      by_cases hu : u = t
      · subst hu
        rw [updP_same] at hpre
        rcases hpre with h | h <;> cases h
      · rw [updP_ne _ _ hu] at hpre
        exact pc0 lid u hpre
    · intro lid
      rw [hcnt]
      exact bd lid
    · intro lid u hcrit
      dsimp only at hcrit ⊢
      by_cases hu : u = t
      · subst hu
        rw [updP_same] at hcrit
        rcases hcrit with h | ⟨e1, h⟩ | ⟨e1, h⟩ <;> cases h
        exact cw lid0 u (by rw [hpc]; exact Or.inr (Or.inl ⟨e0, rfl⟩))
      · rw [updP_ne _ _ hu] at hcrit
        exact cw lid u hcrit
    · intro u lid hmem
      dsimp only
      rcases List.mem_append.mp hmem with h | h
      · have hw2 := wt u lid h
        by_cases hu : u = t
        · subst hu
          rw [hpc] at hw2
          rcases hw2 with ⟨l, h2 | h2⟩ | h2 <;> cases h2
        · rw [updP_ne _ _ hu]
          exact hw2
      · cases List.mem_singleton.mp h
    · intro u lid e1 hmem
      dsimp only
      rcases List.mem_append.mp hmem with h | h
      · have hb := bt u lid e1 h
        by_cases hu : u = t
        · subst hu
          rw [hpc] at hb
          rcases hb with h2 | h2 | h2 <;> cases h2
          rw [updP_same]
          exact Or.inr (Or.inl rfl)
        · rw [updP_ne _ _ hu]
          exact hb
      · cases List.mem_singleton.mp h
    · intro lid hr2
      dsimp only at hr2
      exact Option.noConfusion hr2
  | .wunlock _ t lid0 e0 hpc =>
    have hlt : lid0 < s.numLocks := by
      by_contra hge
      exact fPC lid0 t (by omega) (by rw [hpc]; rfl)
    have hownt : ownerPC (s.pcs t) lid0 := by
      rw [hpc]
      exact Or.inr (Or.inr ⟨e0, rfl⟩)
    have hcnt : ∀ lid, cnt (evs ++ [Ev.wunlock t lid0]) lid = cnt evs lid :=
      fun lid => cnt_append_nonbuild evs _ lid rfl
    refine ⟨?_, ?_, ?_, ?_, ?_, ?_, ?_, ?_, ?_⟩
    · intro lid u hle
      dsimp only at hle ⊢
      by_cases hu : u = t
      · subst hu
        rw [updP_same]
        exact not_mentions_of_pcLid_none rfl
      · rw [updP_ne _ _ hu]
        exact fPC lid u hle
    · intro lid hle
      dsimp only at hle
      rw [hcnt]
      exact fCNT lid hle
    · intro lid u v hou hov
      dsimp only at hou hov
      by_cases h1 : u = t
      · subst h1
        rw [updP_same] at hou
        rcases hou with (h | h) | (⟨e1, h⟩ | ⟨e1, h⟩) <;> cases h
      · by_cases h2 : v = t
        · subst h2
          rw [updP_same] at hov
          rcases hov with (h | h) | (⟨e1, h⟩ | ⟨e1, h⟩) <;> cases h
        · rw [updP_ne _ _ h1] at hou
          rw [updP_ne _ _ h2] at hov
          exact uq lid u v hou hov
    · intro lid u hpre
      dsimp only at hpre
      rw [hcnt]
      by_cases hu : u = t
      · subst hu
        rw [updP_same] at hpre
        rcases hpre with h | h <;> cases h
      · rw [updP_ne _ _ hu] at hpre
        exact pc0 lid u hpre
    · intro lid
      rw [hcnt]
      exact bd lid
    · intro lid u hcrit
      dsimp only at hcrit ⊢
      by_cases hu : u = t
      · subst hu
        rw [updP_same] at hcrit
        rcases hcrit with h | ⟨e1, h⟩ | ⟨e1, h⟩ <;> cases h
      · rw [updP_ne _ _ hu] at hcrit
        by_cases hl : lid = lid0
        · subst hl
          exact absurd (uq lid u t (critPC_ownerPC hcrit) hownt) hu
        · rw [updL_ne _ _ hl]
          exact cw lid u hcrit
    · intro u lid hmem
      dsimp only
      rcases List.mem_append.mp hmem with h | h
      · have hw2 := wt u lid h
        by_cases hu : u = t
        · subst hu
          rw [hpc] at hw2
          rcases hw2 with ⟨l, h2 | h2⟩ | h2 <;> cases h2
        · rw [updP_ne _ _ hu]
          exact hw2
      · cases List.mem_singleton.mp h
    · intro u lid e1 hmem
      dsimp only
      rcases List.mem_append.mp hmem with h | h
      · have hb := bt u lid e1 h
        by_cases hu : u = t
        · subst hu
          rw [hpc] at hb
          rcases hb with h2 | h2 | h2 <;> cases h2
          rw [updP_same]
          exact Or.inr (Or.inr rfl)
        · rw [updP_ne _ _ hu]
          exact hb
      · cases List.mem_singleton.mp h
    · intro lid hr2
      dsimp only at hr2 ⊢
      exact rl lid hr2
  | .rlock _ t lid0 hpc hw =>
    have hlt : lid0 < s.numLocks := by
      by_contra hge
      exact fPC lid0 t (by omega) (by rw [hpc]; rfl)
    have hcnt : ∀ lid, cnt (evs ++ [Ev.rlock t lid0]) lid = cnt evs lid :=
      fun lid => cnt_append_nonbuild evs _ lid rfl
    refine ⟨?_, ?_, ?_, ?_, ?_, ?_, ?_, ?_, ?_⟩
    · intro lid u hle
      dsimp only at hle ⊢
      by_cases hu : u = t
      · subst hu
        rw [updP_same]
        intro hm
        have h1 : lid0 = lid := mentions_some hm rfl
        omega
      · rw [updP_ne _ _ hu]
        exact fPC lid u hle
    · intro lid hle
      dsimp only at hle
      rw [hcnt]
      exact fCNT lid hle
    · intro lid u v hou hov
      dsimp only at hou hov
      by_cases h1 : u = t
      · subst h1
        rw [updP_same] at hou
        rcases hou with (h | h) | (⟨e1, h⟩ | ⟨e1, h⟩) <;> cases h
      · by_cases h2 : v = t
        · subst h2
          rw [updP_same] at hov
          rcases hov with (h | h) | (⟨e1, h⟩ | ⟨e1, h⟩) <;> cases h
        · rw [updP_ne _ _ h1] at hou
          rw [updP_ne _ _ h2] at hov
          exact uq lid u v hou hov
    · intro lid u hpre
      dsimp only at hpre
      rw [hcnt]
      by_cases hu : u = t
      · subst hu
        rw [updP_same] at hpre
        rcases hpre with h | h <;> cases h
      · rw [updP_ne _ _ hu] at hpre
        exact pc0 lid u hpre
    · intro lid
      rw [hcnt]
      exact bd lid
    · intro lid u hcrit
      dsimp only at hcrit ⊢
      by_cases hu : u = t
      · subst hu
        rw [updP_same] at hcrit
        rcases hcrit with h | ⟨e1, h⟩ | ⟨e1, h⟩ <;> cases h
      · rw [updP_ne _ _ hu] at hcrit
        by_cases hl : lid = lid0
        · subst hl
          exact absurd (cw lid u hcrit) (by rw [hw]; exact Bool.false_ne_true)
        · rw [updL_ne _ _ hl]
          exact cw lid u hcrit
    · intro u lid hmem
      dsimp only
      rcases List.mem_append.mp hmem with h | h
      · by_cases hu : u = t
        · subst hu
          rw [updP_same]
          exact Or.inl ⟨lid0, Or.inr rfl⟩
        · rw [updP_ne _ _ hu]
          exact wt u lid h
      · cases List.mem_singleton.mp h
    · intro u lid e1 hmem
      dsimp only
      rcases List.mem_append.mp hmem with h | h
      · have hb := bt u lid e1 h
        by_cases hu : u = t
        · subst hu
          rw [hpc] at hb
          rcases hb with h2 | h2 | h2 <;> cases h2
        · rw [updP_ne _ _ hu]
          exact hb
      · cases List.mem_singleton.mp h
    · intro lid hr2
      dsimp only at hr2 ⊢
      exact rl lid hr2
  | .runlock _ t lid0 hpc =>
    have hcnt : ∀ lid, cnt (evs ++ [Ev.runlock t lid0]) lid = cnt evs lid :=
      fun lid => cnt_append_nonbuild evs _ lid rfl
    refine ⟨?_, ?_, ?_, ?_, ?_, ?_, ?_, ?_, ?_⟩
    · intro lid u hle
      dsimp only at hle ⊢
      by_cases hu : u = t
      · subst hu
        rw [updP_same]
        exact not_mentions_of_pcLid_none rfl
      · rw [updP_ne _ _ hu]
        exact fPC lid u hle
    · intro lid hle
      dsimp only at hle
      rw [hcnt]
      exact fCNT lid hle
    · intro lid u v hou hov
      dsimp only at hou hov
      by_cases h1 : u = t
      · subst h1
        rw [updP_same] at hou
        rcases hou with (h | h) | (⟨e1, h⟩ | ⟨e1, h⟩) <;> cases h
      · by_cases h2 : v = t
        · subst h2
          rw [updP_same] at hov
          rcases hov with (h | h) | (⟨e1, h⟩ | ⟨e1, h⟩) <;> cases h
        · rw [updP_ne _ _ h1] at hou
          rw [updP_ne _ _ h2] at hov
          exact uq lid u v hou hov
    · intro lid u hpre
      dsimp only at hpre
      rw [hcnt]
      by_cases hu : u = t
      · subst hu
        rw [updP_same] at hpre
        rcases hpre with h | h <;> cases h
      · rw [updP_ne _ _ hu] at hpre
        exact pc0 lid u hpre
    · intro lid
      rw [hcnt]
      exact bd lid
    · intro lid u hcrit
      dsimp only at hcrit ⊢
      by_cases hu : u = t
      · subst hu
        rw [updP_same] at hcrit
        rcases hcrit with h | ⟨e1, h⟩ | ⟨e1, h⟩ <;> cases h
      · rw [updP_ne _ _ hu] at hcrit
        by_cases hl : lid = lid0
        · subst hl
          rw [updL_same]
          exact cw lid u hcrit
        · rw [updL_ne _ _ hl]
          exact cw lid u hcrit
    · intro u lid hmem
      dsimp only
      rcases List.mem_append.mp hmem with h | h
      · by_cases hu : u = t
        · subst hu
          rw [updP_same]
          exact Or.inr rfl
        · rw [updP_ne _ _ hu]
          exact wt u lid h
      · cases List.mem_singleton.mp h
    · intro u lid e1 hmem
      dsimp only
      rcases List.mem_append.mp hmem with h | h
      · have hb := bt u lid e1 h
        by_cases hu : u = t
        · subst hu
          rw [hpc] at hb
          rcases hb with h2 | h2 | h2 <;> cases h2
        · rw [updP_ne _ _ hu]
          exact hb
      · cases List.mem_singleton.mp h
    · intro lid hr2
      dsimp only at hr2 ⊢
      exact rl lid hr2

/-- The invariant holds in every reachable state. -/
theorem inv_reach {n : Nat} {s0 s : Sys n} {evs : List (Ev n)}
    (h : Reaches s0 evs s) (h0 : Inv s0 []) : Inv s evs := by
  induction h with
  | refl => exact h0
  | snoc hr hstep ih => exact inv_step ih hstep


/-- The refuting interleaving `cexTrace` is a real execution. -/
theorem reach_cex : Reaches (init 2) cexTrace sCex4 :=
  Reaches.snoc (Reaches.snoc (Reaches.snoc (Reaches.snoc (Reaches.refl _)
    (Step.loadStore (init 2) 0 rfl rfl))
    (Step.loadFound sCex1 1 0 rfl rfl))
    (Step.rlock sCex2 1 0 rfl rfl))
    (Step.runlock sCex3 1 0 rfl)


/-- C1 is false on the code as stated: in the two-thread execution
`cexTrace`, the waiter (thread 1) has already returned from the build
coordinator (result `nil`) and proceeds to its serve attempt while the
builder (thread 0) has not even acquired the write lock and no Image-Store
build call has occurred — the waiter did not block until the build
completed.  The race window is between the builder's `LoadOrStore`
(line 194) and its `mut.Lock()` (line 201). -/
theorem build_waiter_can_return_before_build :
    Reaches (init 2) cexTrace sCex4 ∧
    sCex4.pcs 1 = .doneW ∧
    result (sCex4.pcs 1) = some none ∧
    sCex4.pcs 0 = .builderLock 0 ∧
    cexTrace.filter isBuildEv = [] :=
  ⟨reach_cex, by decide, by decide, by decide, by decide⟩

/-- C1 (amended): in every reachable execution of any number of concurrent
`Handler.build` calls for the same previously-unbuilt reference, (i) at most
one Image-Store build call occurs per lock-registry entry (the entry's
creator's), and (ii) a waiter about to `RLock` is blocked whenever the
builder is inside its critical section, so a waiter that reaches its read
lock while the build is in flight proceeds only after the builder releases.
A waiter that slips in between the builder's `LoadOrStore` and `Lock` can,
however, return before the build completes (see the counterexample), and a
call arriving after the builder's `Delete` starts a fresh entry with its own
build. -/
theorem build_single_flight_amended (n : Nat) (evs : List (Ev n)) (s : Sys n)
    (h : Reaches (init n) evs s) :
    (∀ lid, cnt evs lid ≤ 1) ∧
    (∀ (t b : Fin n) (lid : Nat), s.pcs t = .waiterRLock lid →
      critPC (s.pcs b) lid → ∀ s2, ¬ Step s (Ev.rlock t lid) s2) := by
  have hinv := inv_reach h (inv_init n)
  refine ⟨hinv.bound, ?_⟩
  intro t b lid hpt hcb s2 hstep
  have hwh : (s.lock lid).writerHeld = true := hinv.critW lid b hcb
  match hstep with
  | .rlock _ _ _ hpc hw =>
    rw [hwh] at hw
    exact Bool.noConfusion hw

/-- Witness for `build_single_flight_amended` on the concrete execution
`cexTrace`. -/
theorem build_single_flight_amended_witness :
    (∀ lid, cnt cexTrace lid ≤ 1) ∧
    (∀ (t b : Fin 2) (lid : Nat), sCex4.pcs t = .waiterRLock lid →
      critPC (sCex4.pcs b) lid → ∀ s2, ¬ Step sCex4 (Ev.rlock t lid) s2) :=
  build_single_flight_amended 2 cexTrace sCex4 reach_cex

/-- C2: in every reachable execution, a thread that entered as a waiter
(its `LoadOrStore` found an existing entry) either has not returned yet or
returned `nil` — it never returns an error, whatever the builder's outcome —
and a thread that performed the Image-Store build call returns exactly that
call's error. -/
theorem build_error_only_to_builder (n : Nat) (evs : List (Ev n)) (s : Sys n)
    (h : Reaches (init n) evs s) :
    (∀ (t : Fin n) (lid : Nat), Ev.loadFound t lid ∈ evs →
      result (s.pcs t) = none ∨ result (s.pcs t) = some none) ∧
    (∀ (t : Fin n) (lid : Nat) (e1 : Option String),
      Ev.buildCall t lid e1 ∈ evs →
      result (s.pcs t) = none ∨ result (s.pcs t) = some e1) := by
  have hinv := inv_reach h (inv_init n)
  constructor
  · intro t lid hmem
    have hw := hinv.wtrack t lid hmem
    rcases hw with ⟨l, h2 | h2⟩ | h2 <;> rw [h2] <;> simp [result]
  · intro t lid e1 hmem
    have hb := hinv.btrack t lid e1 hmem
    rcases hb with h2 | h2 | h2 <;> rw [h2] <;> simp [result]


/-- The failed-build scenario `trB` is a real execution. -/
theorem reach_trB : Reaches (init 2) trB sB8 :=
  Reaches.snoc (Reaches.snoc (Reaches.snoc (Reaches.snoc (Reaches.snoc
    (Reaches.snoc (Reaches.snoc (Reaches.snoc (Reaches.refl _)
    (Step.loadStore (init 2) 0 rfl rfl))
    (Step.wlock sCex1 0 0 rfl rfl rfl))
    (Step.loadFound sB2 1 0 rfl rfl))
    (Step.buildCall sB3 0 0 (some "boom") rfl))
    (Step.del sB4 0 0 (some "boom") rfl))
    (Step.wunlock sB5 0 0 (some "boom") rfl))
    (Step.rlock sB6 1 0 rfl rfl))
    (Step.runlock sB7 1 0 rfl)

/-- Witness for `build_error_only_to_builder` on `trB`: the waiter returned
`nil` although the builder's Image-Store build failed with `boom`; the
builder returned that error. -/
theorem build_error_only_to_builder_witness :
    (result (sB8.pcs 1) = none ∨ result (sB8.pcs 1) = some none) ∧
    (result (sB8.pcs 0) = none ∨ result (sB8.pcs 0) = some (some "boom")) := by
  have h := build_error_only_to_builder 2 trB sB8 reach_trB
  exact ⟨h.1 1 0 (by decide), h.2 0 0 (some "boom") (by decide)⟩


/-- C3: the mutation selected by the loop in `Handler.build` equals the
mutation of the first rule in list (precedence) order whose match predicate
accepts the reference, or no mutation if none matches; and the rules actually
consulted are exactly the non-matching head of the list plus the first
matching rule, so no rule after the first match is ever consulted. -/
theorem build_first_match_wins (rules : List Rule) (ref : String) :
    matchLoop rules ref = firstMatchSpec rules ref ∧
    (consultLoop rules ref).2 = matchLoop rules ref ∧
    (consultLoop rules ref).1 =
      rules.takeWhile (fun r => (r.Match ref).isNone) ++
        (rules.find? (fun r => (r.Match ref).isSome)).toList := by
  refine ⟨?_, ?_, ?_⟩
  · induction rules with
    | nil => rfl
    | cons r rs ih =>
      simp only [matchLoop, firstMatchSpec, List.find?]
      cases h : r.Match ref with
      | some m => simp [h]
      | none => simpa [h, firstMatchSpec] using ih
  · induction rules with
    | nil => rfl
    | cons r rs ih =>
      simp only [matchLoop, consultLoop]
      cases h : r.Match ref with
      | some m => simp
      | none => simpa using ih
  · induction rules with
    | nil => rfl
    | cons r rs ih =>
      simp only [consultLoop, List.takeWhile, List.find?]
      cases h : r.Match ref with
      | some m => simp [h, Option.isNone, Option.isSome]
      | none => simp [h, Option.isNone, Option.isSome, ih]

/-- C10: the reference constructor `image + ":" + tag` of `Handler.build` is
not injective over (repository, tag) pairs: repository `"a"` with tag
`"b:c"` and repository `"a:b"` with tag `"c"` (both producible by
`ServeHTTP` path parsing) yield the same reference string, hence the same
lock-registry key, the same single-flight slot, and the same rule-match
outcome. -/
theorem ref_not_injective :
    mkRef "a" "b:c" = mkRef "a:b" "c" ∧
    ¬ (("a", "b:c") = (("a:b", "c") : String × String)) ∧
    (∀ rules : List Rule,
      matchLoop rules (mkRef "a" "b:c") = matchLoop rules (mkRef "a:b" "c")) ∧
    route "GET" "/v2/a/manifests/b:c" = some (.manifests "a" "b:c") ∧
    route "GET" "/v2/a:b/manifests/c" = some (.manifests "a:b" "c") := by
  refine ⟨by decide, by decide, ?_, by decide, by decide⟩
  intro rules
  have h : mkRef "a" "b:c" = mkRef "a:b" "c" := by decide
  rw [h]

/-! ### C6, C7: manifest pipeline claims -/

/-- C6: a manifest request whose reference begins with `sha256:` is served
from the content-addressed blob path directly; the handler invokes neither
rule resolution nor the build coordinator nor the Image Store's build, for
every rule list — in particular even when a rule matches the digest
reference. -/
theorem digest_manifest_never_builds (env : BuildEnv) (rules : List Rule)
    (fs : FS) (image tag : String) (h : hasSha256 tag = true) :
    manifests env rules fs image tag =
      ⟨false, false, none, serveManifest fs (BlobsPath tag)⟩ := by
  simp [manifests, h]

/-- Witness for `digest_manifest_never_builds`: tag `sha256:abc`, with a
rule that does match the digest reference — still no resolution, no build. -/
theorem digest_manifest_never_builds_witness :
    hasSha256 "sha256:abc" = true ∧
    matchLoop [rDigest] (mkRef "img" "sha256:abc") = some 3 ∧
    manifests envTriv [rDigest] fsEmpty "img" "sha256:abc" =
      ⟨false, false, none, .notFound⟩ := by
  refine ⟨by decide, by decide, ?_⟩
  rw [digest_manifest_never_builds envTriv [rDigest] fsEmpty "img"
    "sha256:abc" (by decide)]
  decide

/-- C7: for a non-digest reference that matches no rule and whose manifest
file does not exist, the build coordinator returns no error and performs no
Image-Store build call, and the serve step responds 404 because the manifest
file cannot be opened. -/
theorem unmatched_ref_build_noop_then_404 (env : BuildEnv)
    (rules : List Rule) (fs : FS) (image tag : String)
    (h1 : hasSha256 tag = false)
    (h2 : fs.files (ManifestPath image tag) = false)
    (h3 : matchLoop rules (mkRef image tag) = none) :
    manifests env rules fs image tag = ⟨true, true, none, .notFound⟩ := by
  simp [manifests, h1, h2, buildSeq, h3, serveManifest]

/-- Witness for `unmatched_ref_build_noop_then_404` at a concrete request:
empty rule list, empty filesystem, reference `a:v`. -/
theorem unmatched_ref_build_noop_then_404_witness :
    hasSha256 "v" = false ∧
    fsEmpty.files (ManifestPath "a" "v") = false ∧
    matchLoop [] (mkRef "a" "v") = none ∧
    manifests envTriv [] fsEmpty "a" "v" = ⟨true, true, none, .notFound⟩ := by
  exact ⟨by decide, by decide, by decide,
    unmatched_ref_build_noop_then_404 envTriv [] fsEmpty "a" "v"
      (by decide) (by decide) (by decide)⟩

/-! ### C9: unknown artifact type writes no response -/

/-- C9: a GET or HEAD request under `/v2/` whose path splits into at least
four segments and whose second-to-last segment is neither `blobs` nor
`manifests` falls through the `switch` of `ServeHTTP` with no branch taken:
no status code, headers, or body are written (`route` returns `none`). -/
theorem unknown_artifact_type_writes_nothing (method path : String)
    (hm : method = "GET" ∨ method = "HEAD")
    (hv : hasV2 path = true)
    (hlen : 4 ≤ (mkParts path).length)
    (hb : (mkParts path).getD ((mkParts path).length - 2) "" ≠ "blobs")
    (hmf : (mkParts path).getD ((mkParts path).length - 2) "" ≠ "manifests") :
    route method path = none := by
  have hroot : path ≠ "/v2/" := by
    intro he
    rw [he] at hlen
    exact absurd hlen (by decide)
  have hlen4 : ¬ (mkParts path).length < 4 := Nat.not_lt.mpr hlen
  simp only [List.getD_eq_getElem?_getD] at hb hmf
  rcases hm with h | h <;> simp [route, h, hv, hroot, hlen4, hb, hmf]

/-- Witness for `unknown_artifact_type_writes_nothing`: the OCI tag-listing
path `/v2/a/tags/list` (artifact type `tags`) produces no response. -/
theorem unknown_artifact_type_writes_nothing_witness :
    route "GET" "/v2/a/tags/list" = none :=
  unknown_artifact_type_writes_nothing "GET" "/v2/a/tags/list" (Or.inl rfl)
    (by decide) (by decide) (by decide) (by decide)

/-! ### C4: sorting of the rule lists -/

/-- C4 is false on the code: `NewHandler` and `getRules` sort with Go's
`sort.Slice`, whose contract does not guarantee stability.  For the static
config `[sTieA, sTieB]` (converting to the tied rules `[rTieA, rTieB]`),
the construction is permitted to produce the rule list `[rTieB, rTieA]`,
in which the tied rules appear in the opposite of their input order. -/
theorem rule_sort_stability_counterexample :
    NewHandlerRel [sTieA, sTieB] [rTieB, rTieA] ∧
    Rule.LessThan rTieA rTieB = false ∧ Rule.LessThan rTieB rTieA = false ∧
    ¬ (rTieA = rTieB) ∧
    ¬ TiesStable Rule.LessThan [rTieA, rTieB] [rTieB, rTieA] := by
  refine ⟨NewHandlerRel.mk _ [rTieA, rTieB] _ (by decide) ⟨by decide, by decide⟩,
    by decide, by decide, by decide, ?_⟩
  intro hstab
  have h := hstab rTieA rTieB (by decide) (by decide) (by decide) (by decide)
    (by decide)
  exact absurd h (by decide)

/-- C4 (amended): the rule list used at match time — the static list sorted
in `NewHandler` and the merged list sorted on cache rebuild in `getRules` —
is a permutation of the converted input that is sorted by the precedence
comparison; the relative order of rules that compare equal is NOT specified
(`sort.Slice` is not guaranteed stable). -/
theorem rule_lists_sorted_by_precedence :
    (∀ config out, NewHandlerRel config out →
      out.Pairwise lePrec ∧
      ∃ rs, config.mapM NewRule = some rs ∧ rs.Perm out) ∧
    (∀ h l out h1, h.store = some l → h.cr = none →
      GetRules h (out, h1) →
      out.Pairwise lePrec ∧ (h.rules ++ l.filterMap NewRule).Perm out) := by
  constructor
  · intro config out hrel
    match hrel with
    | .mk _ rs _ hmap hsort =>
      exact ⟨hsort.2.imp (fun hx => (lessThan_eq_false_iff _ _).mp hx),
        rs, hmap, hsort.1⟩
  · intro h l out h1 hs hc hget
    match hget with
    | .noStore _ h0 => exact absurd h0 (by simp [hs])
    | .cached _ l0 c h0 hcr => exact absurd hcr (by simp [hc])
    | .rebuild _ l0 _ h0 _ hsort =>
      cases Option.some.inj (h0.symm.trans hs)
      exact ⟨hsort.2.imp (fun hx => (lessThan_eq_false_iff _ _).mp hx),
        hsort.1⟩

/-- Witness for `rule_lists_sorted_by_precedence` at a concrete construction
and a concrete cache rebuild. -/
theorem rule_lists_sorted_by_precedence_witness :
    (([rTieA] : List Rule).Pairwise lePrec ∧
      ∃ rs, List.mapM NewRule [sTieA] = some rs ∧ rs.Perm [rTieA]) ∧
    (([rTieB] : List Rule).Pairwise lePrec ∧
      (([rTieB] : List Rule) ++ List.filterMap NewRule []).Perm [rTieB]) := by
  constructor
  · exact rule_lists_sorted_by_precedence.1 [sTieA] [rTieA]
      (NewHandlerRel.mk _ [rTieA] _ (by decide) ⟨by decide, by decide⟩)
  · exact rule_lists_sorted_by_precedence.2 ⟨[rTieB], none, some []⟩ [] [rTieB]
      ⟨[rTieB], some [rTieB], some []⟩ rfl rfl
      (GetRules.rebuild _ [] [rTieB] rfl rfl ⟨by decide, by decide⟩)

/-! ### C5: cache semantics of getRules / resetCR -/

/-- C5: when a watch store is configured, two consecutive `getRules` calls
with no intervening `resetCR` return the identical list (the second always
serves the cache populated or confirmed by the first), and `resetCR`
followed by `getRules` always recomputes: the result is the current static
rules merged with the conversion of the current store listing, sorted per
the `sort.Slice` contract. -/
theorem cache_invalidate_then_resolve (h : HState) (l : List ImageSpec)
    (r1 : List Rule) (h1 : HState) (r2 : List Rule) (h2 : HState)
    (r3 : List Rule) (h3 : HState)
    (hs : h.store = some l) :
    (GetRules h (r1, h1) → GetRules h1 (r2, h2) → r2 = r1) ∧
    (GetRules (resetCR h) (r3, h3) →
      SortSpec Rule.LessThan (h.rules ++ l.filterMap NewRule) r3) := by
  constructor
  · intro g1 g2
    match g1 with
    | .noStore _ h0 => exact absurd h0 (by simp [hs])
    | .cached _ l0 c hst hcr =>
      match g2 with
      | .noStore _ h0 => exact absurd h0 (by simp [hst])
      | .cached _ l1 c1 hst1 hcr1 =>
        exact Option.some.inj (hcr1.symm.trans hcr)
      | .rebuild _ l1 o1 hst1 hcr1 _ => exact absurd hcr1 (by simp [hcr])
    | .rebuild _ l0 o0 hst hcr hsort =>
      match g2 with
      | .noStore _ h0 => exact absurd h0 (by simp [hst])
      | .cached _ l1 c1 hst1 hcr1 =>
        exact Option.some.inj hcr1.symm
      | .rebuild _ l1 o1 hst1 hcr1 _ => exact absurd hcr1 (by simp)
  · intro g3
    match g3 with
    | .noStore _ h0 => exact absurd h0 (by simp [resetCR, hs])
    | .cached _ l0 c hst hcr => exact absurd hcr (by simp [resetCR])
    | .rebuild _ l0 o0 hst hcr hsort =>
      have : l0 = l := by
        have h1 : (resetCR h).store = some l := by simp [resetCR, hs]
        exact Option.some.inj (hst.symm.trans h1)
      cases this
      exact hsort

/-- Witness for `cache_invalidate_then_resolve` on a concrete handler state:
one static rule, empty store listing. -/
theorem cache_invalidate_then_resolve_witness :
    (([rTieA] : List Rule) = [rTieA]) ∧
    SortSpec Rule.LessThan
      (([rTieA] : List Rule) ++ List.filterMap NewRule []) [rTieA] := by
  have h := cache_invalidate_then_resolve ⟨[rTieA], none, some []⟩ []
    [rTieA] ⟨[rTieA], some [rTieA], some []⟩
    [rTieA] ⟨[rTieA], some [rTieA], some []⟩
    [rTieA] ⟨[rTieA], some [rTieA], some []⟩ rfl
  refine ⟨h.1 ?_ ?_, h.2 ?_⟩
  · exact GetRules.rebuild _ [] [rTieA] rfl rfl ⟨by decide, by decide⟩
  · exact GetRules.cached _ [] [rTieA] rfl rfl
  · exact GetRules.rebuild _ [] [rTieA] rfl rfl ⟨by decide, by decide⟩

/-! ### C8: malformed cluster objects are skipped, never fatal -/

/-- C8: on a cache rebuild, `getRules` skips every cluster object that fails
conversion (`continue`, handler.go line 120) and still returns a merged list
containing all static rules and the rule of every well-formed object;
resolution always has an outcome (a malformed object never aborts it). -/
theorem rebuild_skips_malformed (h : HState) (l : List ImageSpec)
    (out : List Rule) (h1 : HState)
    (hs : h.store = some l) (hc : h.cr = none) :
    (GetRules h (out, h1) →
      (∀ r, r ∈ h.rules → r ∈ out) ∧
      (∀ s r, s ∈ l → NewRule s = some r → r ∈ out) ∧
      (h.rules ++ l.filterMap NewRule).Perm out) ∧
    (∃ out0 h0, GetRules h (out0, h0)) := by
  constructor
  · intro hget
    match hget with
    | .noStore _ h0 => exact absurd h0 (by simp [hs])
    | .cached _ l0 c h0 hcr => exact absurd hcr (by simp [hc])
    | .rebuild _ l0 _ h0 _ hsort =>
      cases Option.some.inj (h0.symm.trans hs)
      refine ⟨?_, ?_, hsort.1⟩
      · intro r hr
        exact hsort.1.mem_iff.mp (List.mem_append_left _ hr)
      · intro s r hsl hconv
        refine hsort.1.mem_iff.mp (List.mem_append_right _ ?_)
        exact List.mem_filterMap.mpr ⟨s, hsl, hconv⟩
  · exact ⟨sortByPrec (h.rules ++ l.filterMap NewRule), _,
      GetRules.rebuild h l _ hs hc (sortSpec_sortByPrec _)⟩

/-- Witness for `rebuild_skips_malformed`: one static rule, one malformed and
one well-formed cluster object; the malformed one is skipped, the static and
converted rules are all in the result. -/
theorem rebuild_skips_malformed_witness :
    ((∀ r, r ∈ ([rTieA] : List Rule) → r ∈ [rGood, rTieA]) ∧
      (∀ s r, s ∈ [sBad, sGood] → NewRule s = some r → r ∈ [rGood, rTieA]) ∧
      (([rTieA] : List Rule) ++
        List.filterMap NewRule [sBad, sGood]).Perm [rGood, rTieA]) ∧
    (∃ out0 h0, GetRules ⟨[rTieA], none, some [sBad, sGood]⟩ (out0, h0)) := by
  have h := rebuild_skips_malformed ⟨[rTieA], none, some [sBad, sGood]⟩
    [sBad, sGood] [rGood, rTieA]
    ⟨[rTieA], some [rGood, rTieA], some [sBad, sGood]⟩ rfl rfl
  exact ⟨h.1 (GetRules.rebuild _ [sBad, sGood] [rGood, rTieA] rfl rfl
    ⟨by decide, by decide⟩), h.2⟩


end Jitdi

